import Mathlib

/-!
# Verification of the libmv-rust C binding (`libmv-c.cpp` / `libmv-c.h`)

The binding marshals between raw C buffers and libmv's robust two-view geometry
routines.  The marshaling layer (buffer copies, the `memcpy` of the inlier index
list, the unconditional copy-out of result matrices) is embedded directly from
`libmv-c.cpp`.  The algorithmic core (`FundamentalFromCorrespondences{7,8}PointRobust`,
`MotionFromEssentialAndCorrespondence`) lives in libmv and is not part of the given
sources; those parts are modelled from the specification (§4.3, §4.4), with the
numerically transcendental pieces (SVD factorisations, triangulated depths)
abstracted as explicit inputs.  All arithmetic is over `ℚ`.
-/

set_option autoImplicit false

namespace LibmvC

open Matrix (transpose)

open scoped Matrix

abbrev Mat3 := Matrix (Fin 3) (Fin 3) ℚ

abbrev Pt := ℚ × ℚ

/-! ### Marshaling layer, embedded from `libmv-c.cpp` -/

/-- A C `int` as 4 little-endian bytes (`sizeof(int) = 4`); the inlier indices
stored in the vector are non-negative, so `ℕ` suffices. -/
def intLEBytes (v : ℕ) : List ℕ :=
  [v % 256, v / 256 % 256, v / 256 ^ 2 % 256, v / 256 ^ 3 % 256]

/-- The raw byte image of an `int` array, as `memcpy` sees it. -/
def intsToBytes (l : List ℕ) : List ℕ :=
  (l.map intLEBytes).flatten

/-- Read an `int` array back out of a byte buffer (groups of 4 bytes,
little endian). -/
def bytesToInts : List ℕ → List ℕ
  | b0 :: b1 :: b2 :: b3 :: rest =>
      (b0 + 256 * b1 + 256 ^ 2 * b2 + 256 ^ 3 * b3) :: bytesToInts rest
  | _ => []

/-- `memcpy(dst, src, n)` on byte buffers: the first `n` bytes of `dst` are
replaced by the first `n` bytes of `src`. -/
def memcpyBytes (dst src : List ℕ) (n : ℕ) : List ℕ :=
  src.take n ++ dst.drop n

/-- The inlier copy-out performed by both robust wrappers (`libmv-c.cpp`
lines 31–34 and 61–64):
`if (inliers) { memcpy(inliers, inliers_vec.data(), inliers_vec.size()); *inliers_sz = inliers_vec.size(); }`.
The byte count handed to `memcpy` is the element count `inliers_vec.size()`.
`buf0` is the caller's inlier buffer (as bytes) and `sz0` the initial value
behind `inliers_sz`. -/
def writeInliers (inliersNonNull : Bool) (buf0 : List ℕ) (sz0 : ℕ) (vec : List ℕ) :
    List ℕ × ℕ :=
  if inliersNonNull then (memcpyBytes buf0 (intsToBytes vec) vec.length, vec.length)
  else (buf0, sz0)

/-- The element-count copy that the interface contract
(`inliers[≤N indices]` output) calls for:
`memcpy(inliers, inliers_vec.data(), inliers_vec.size() * sizeof(int))`. -/
def writeInliersElems (inliersNonNull : Bool) (buf0 : List ℕ) (sz0 : ℕ) (vec : List ℕ) :
    List ℕ × ℕ :=
  if inliersNonNull then (memcpyBytes buf0 (intsToBytes vec) (vec.length * 4), vec.length)
  else (buf0, sz0)

/-- The double loop `for y in 0..3: for x in 0..3: buf[y*3+x] = Fm(y,x)` that both
fundamental wrappers use for `F` and the motion wrapper uses for `R`. -/
def writeRowMajor (buf : Fin 9 → ℚ) (Fm : Mat3) : Fin 9 → ℚ :=
  (List.finRange 3).foldl
    (fun b y =>
      (List.finRange 3).foldl
        (fun b2 x =>
          Function.update b2 ⟨y.1 * 3 + x.1, by have := y.isLt; have := x.isLt; omega⟩
            (Fm y x)) b)
    buf

/-- Result of a `fundamental_from_correspondences_{7,8}_point_robust` call as the
caller observes it: the `F` buffer, the inlier buffer (bytes), the value behind
`inliers_sz`, and the returned score. -/
structure FundWrapperOut where
  fbuf : Fin 9 → ℚ
  inlierBytes : List ℕ
  inliersSz : ℕ
  ret : ℚ

/-- Marshaling of `fundamental_from_correspondences_{7,8}_point_robust`
(`libmv-c.cpp` lines 9–37 and 39–67).  `ret`, `Fm` and `vec` are the score,
matrix and inlier vector produced by the inner libmv call; the wrapper copies
`Fm` into the caller's `F` buffer row-major, copies the inlier vector when the
`inliers` pointer is non-null, and returns the score. -/
def fundWrapper (ret : ℚ) (Fm : Mat3) (vec : List ℕ)
    (fbuf0 : Fin 9 → ℚ) (inliersNonNull : Bool) (buf0 : List ℕ) (sz0 : ℕ) :
    FundWrapperOut :=
  let w := writeInliers inliersNonNull buf0 sz0 vec
  ⟨writeRowMajor fbuf0 Fm, w.1, w.2, ret⟩

/-! ### Essential-to-pose recovery, modelled from the spec (§4.4) -/

/-- Modelled from the spec: the fixed 90°-rotation permutation matrix `W` used by
the essential-matrix decomposition. -/
def Wmat : Mat3 := !![0, -1, 0; 1, 0, 0; 0, 0, 1]

/-- Cofactor expansion of a 3×3 determinant; used so that the decomposition is
executable by kernel reduction (it agrees with `Matrix.det`). -/
def det3 (A : Mat3) : ℚ :=
  A 0 0 * (A 1 1 * A 2 2 - A 1 2 * A 2 1) -
    A 0 1 * (A 1 0 * A 2 2 - A 1 2 * A 2 0) +
    A 0 2 * (A 1 0 * A 2 1 - A 1 1 * A 2 0)

/-- Modelled from the spec: "each rotation candidate must be corrected to have
determinant +1 (negate if −1)". -/
def fixDet (R : Mat3) : Mat3 :=
  if det3 R = -1 then -R else R

/-- One `(R, t)` candidate of the essential-matrix decomposition. -/
structure EssentialCandidate where
  R : Mat3
  t : Fin 3 → ℚ

instance : DecidableEq EssentialCandidate := fun a b =>
  decidable_of_iff (a.R = b.R ∧ a.t = b.t)
    (by cases a; cases b; simp)

/-- The third column of `U` (the translation direction `u3`). -/
def thirdCol (U : Mat3) : Fin 3 → ℚ := fun i => U i 2

/-- Modelled from the spec: the four algebraic candidates
`(U W Vᵀ, ±u3)`, `(U Wᵀ Vᵀ, ±u3)` of the decomposition of an essential matrix,
each rotation corrected to determinant +1.  `U` and `V` are the orthogonal SVD
factors of `E` (the SVD computation itself is not representable over `ℚ` and is
abstracted: the decomposition is a function of the factors). -/
def motionFromEssential (U V : Mat3) : List EssentialCandidate :=
  [⟨fixDet (U * Wmat * Vᵀ), thirdCol U⟩,
   ⟨fixDet (U * Wmat * Vᵀ), -thirdCol U⟩,
   ⟨fixDet (U * Wmatᵀ * Vᵀ), thirdCol U⟩,
   ⟨fixDet (U * Wmatᵀ * Vᵀ), -thirdCol U⟩]

/-- The positive-depth (cheirality) test: both triangulated depths of the test
correspondence are positive. -/
def passesDepth (depth : EssentialCandidate → ℚ × ℚ) (c : EssentialCandidate) : Bool :=
  decide (0 < (depth c).1) && decide (0 < (depth c).2)

/-- `pickUnique l` is `some c` exactly when `l = [c]`. -/
def pickUnique {α : Type} : List α → Option α
  | [c] => some c
  | _ => none

/-- Modelled from the spec: `MotionFromEssentialAndCorrespondence` selects the
unique candidate passing the positive-depth test and fails (returns `none`) when
zero or several candidates pass.  `depth c` gives the triangulated depths of the
single test correspondence in the two camera frames under candidate `c`
(triangulation from `K1, x1, K2, x2` requires an SVD and is abstracted as an
input, like the factors `U, V` of `E`). -/
def motionFromEssentialAndCorrespondence (U V : Mat3)
    (depth : EssentialCandidate → ℚ × ℚ) : Option EssentialCandidate :=
  pickUnique ((motionFromEssential U V).filter (passesDepth depth))

/-- Result of `motion_from_essential_and_correspondence` as the caller observes
it: returned status, `R` buffer, `t` buffer. -/
structure MotionWrapperOut where
  status : ℤ
  rbuf : Fin 9 → ℚ
  tbuf : Fin 3 → ℚ

/-- Marshaling of `motion_from_essential_and_correspondence` (`libmv-c.cpp`
lines 69–103).  `Rm` and `tm` are uninitialized stack variables — `Rm0`, `tm0`
stand for whatever arbitrary contents they start with; the inner call writes
them only on success.  The wrapper then copies them into the caller's buffers
unconditionally (lines 92–100) and returns the `bool` as an `int`. -/
def motionWrapper (inner : Option (Mat3 × (Fin 3 → ℚ))) (Rm0 : Mat3)
    (tm0 : Fin 3 → ℚ) (rbuf0 : Fin 9 → ℚ) : MotionWrapperOut :=
  let Rm := (inner.map Prod.fst).getD Rm0
  let tm := (inner.map Prod.snd).getD tm0
  ⟨if inner.isSome then 1 else 0, writeRowMajor rbuf0 Rm, fun x => tm x⟩

/-! ### Robust fundamental estimation (RANSAC), modelled from the spec (§4.3) -/

/-- SVD-style factors `(U, sv1, sv2, V)` of a candidate matrix.  The solvers'
output is represented by the factors of its singular value decomposition (the
SVD itself is transcendental and not computable over `ℚ`); `enforceRank2`
rebuilds the matrix with the smallest singular value zeroed. -/
structure SVD3 where
  U : Mat3
  sv1 : ℚ
  sv2 : ℚ
  V : Mat3

/-- Modelled from the spec: rank-2 enforcement — "enforce rank 2 by zeroing the
smallest singular value in its own SVD and reconstructing":
`U · diag(sv1, sv2, 0) · Vᵀ`. -/
def enforceRank2 (f : SVD3) : Mat3 :=
  f.U * Matrix.diagonal ![f.sv1, f.sv2, 0] * (f.V)ᵀ

/-- Modelled from the spec: symmetric epipolar distance of the correspondence
`(x1, x2)` (in homogeneous coordinates `(u, v, 1)`) under `F`:
`(x2ᵀF x1)² · (1/‖(F x1)₀,₁‖² + 1/‖(Fᵀ x2)₀,₁‖²)`. -/
def symEpipolarDistance (F : Mat3) (x1 x2 : Pt) : ℚ :=
  let a := F 0 0 * x1.1 + F 0 1 * x1.2 + F 0 2
  let b := F 1 0 * x1.1 + F 1 1 * x1.2 + F 1 2
  let c := F 2 0 * x1.1 + F 2 1 * x1.2 + F 2 2
  let num := x2.1 * a + x2.2 * b + c
  let a2 := F 0 0 * x2.1 + F 1 0 * x2.2 + F 2 0
  let b2 := F 0 1 * x2.1 + F 1 1 * x2.2 + F 2 1
  num ^ 2 * (1 / (a ^ 2 + b ^ 2) + 1 / (a2 ^ 2 + b2 ^ 2))

/-- The inlier classification of spec step 3: index `i` is an inlier of `F`
exactly when its distance is `< maxError`. -/
def inlierIndices (pts1 pts2 : List Pt) (N : ℕ) (maxError : ℚ) (F : Mat3) : List ℕ :=
  (List.range N).filter fun i =>
    decide (symEpipolarDistance F (pts1.getD i (0, 0)) (pts2.getD i (0, 0)) < maxError)

/-- Modelled from the spec: the caller-seeded RNG stream used only for RANSAC
sampling — a linear congruential generator. -/
def lcg (x : ℕ) : ℕ := (1103515245 * x + 12345) % 2 ^ 31

/-- Draw `s` distinct indices, uniformly without replacement, from `avail`,
threading the RNG state. -/
def drawSample : ℕ → List ℕ → ℕ → List ℕ × ℕ
  | 0, _, rng => ([], rng)
  | s + 1, avail, rng =>
      if avail.isEmpty then ([], rng)
      else
        let r := lcg rng
        let i := r % avail.length
        let rest := drawSample s (avail.eraseIdx i) r
        (avail.getD i 0 :: rest.1, rest.2)

/-- A best-so-far model: matrix, quality score (inlier count) and inlier index
list. -/
structure Best where
  F : Mat3
  score : ℕ
  inliers : List ℕ

instance : DecidableEq Best := fun a b =>
  decidable_of_iff (a.F = b.F ∧ a.score = b.score ∧ a.inliers = b.inliers)
    (by cases a; cases b; simp)

/-- Static inputs of one robust estimation call.  `N` is the correspondence
count, `s` the minimal sample size (7 or 8), `p` the assumed
`outliers_probability`, `maxIter` the conservative hard maximum of iterations.
`solver` abstracts the minimal/linear solver: from the sampled correspondences
it returns the SVD factors of each candidate matrix (1–3 of them).  `refit`,
when present, abstracts the optional final 8-point refit on the inlier set. -/
structure RansacIn where
  pts1 : List Pt
  pts2 : List Pt
  N : ℕ
  s : ℕ
  p : ℚ
  maxIter : ℕ
  solver : List (Pt × Pt) → List SVD3
  refit : Option (List (Pt × Pt) → SVD3)

/-- The correspondence at index `i`. -/
def pairAt (inp : RansacIn) (i : ℕ) : Pt × Pt :=
  (inp.pts1.getD i (0, 0), inp.pts2.getD i (0, 0))

/-- Spec step 5: "if score beats best" — strict comparison, with no model
counting as score −∞. -/
def scoreBeats (b : Option Best) (n : ℕ) : Bool :=
  match b with
  | none => true
  | some bb => decide (bb.score < n)

/-- Modelled from the spec: the adaptive iteration count
`k = log(1 - confidence) / log(1 - w^s)` with `confidence = 1 - outliers_probability`
and `w` the observed inlier ratio `inl / N`: the smallest `k` with
`(1 - w^s)^k ≤ p`, capped at the hard maximum `cap`. -/
def itersRequired (cap : ℕ) (inl N s : ℕ) (p : ℚ) : ℕ :=
  (((List.range (cap + 1)).findIdx? fun k =>
      decide ((1 - ((inl : ℚ) / N) ^ s) ^ k ≤ p)).getD cap)

/-- Build the scored model of one candidate: rank-2 enforced matrix, its inlier
set under the threshold, and the inlier count as score. -/
def candBest (inp : RansacIn) (maxError : ℚ) (f : SVD3) : Best :=
  let F := enforceRank2 f
  let inl := inlierIndices inp.pts1 inp.pts2 inp.N maxError F
  ⟨F, inl.length, inl⟩

/-- Score one candidate against the whole set and update best model and
iteration budget (spec steps 3–5); the budget is only ever lowered (`min`),
never increased above its current value. -/
def updateOne (inp : RansacIn) (maxError : ℚ) :
    Option Best × ℕ → SVD3 → Option Best × ℕ :=
  fun st f =>
    let nb := candBest inp maxError f
    if scoreBeats st.1 nb.score then
      (some nb, min st.2 (itersRequired inp.maxIter nb.score inp.N inp.s inp.p))
    else st

/-- Loop-carried state: current iteration, remaining budget, RNG state, best
model, and the number of iterations actually executed. -/
structure LoopState where
  it : ℕ
  budget : ℕ
  rng : ℕ
  best : Option Best
  iters : ℕ

/-- One RANSAC iteration (spec steps 2–5): draw a minimal sample, run the
solver, score every candidate. -/
def ransacStep (inp : RansacIn) (maxError : ℚ) (st : LoopState) : LoopState :=
  let draw := drawSample inp.s (List.range inp.N) st.rng
  let sample := draw.1.map (pairAt inp)
  let cands := inp.solver sample
  let upd := cands.foldl (updateOne inp maxError) (st.best, st.budget)
  ⟨st.it + 1, upd.2, draw.2, upd.1, st.iters + 1⟩

/-- The RANSAC loop (spec step 6): iterate while `it < budget`.  `fuel` is a
structural recursion bound; since the budget never grows, fuel
`maxIter` is never the binding constraint (`ransacLoop_stable` below), so the
loop's sole exit is the budget condition. -/
def ransacLoop (inp : RansacIn) (maxError : ℚ) : ℕ → LoopState → LoopState
  | 0, st => st
  | fuel + 1, st =>
      if st.it < st.budget then ransacLoop inp maxError fuel (ransacStep inp maxError st)
      else st

/-- Initial state (spec step 1): iteration 0, budget at the conservative hard
maximum, best = none, RNG at the caller's seed. -/
def initState (inp : RansacIn) (seed : ℕ) : LoopState :=
  ⟨0, inp.maxIter, seed, none, 0⟩

/-- Run the loop to completion from the initial state. -/
def ransacRun (inp : RansacIn) (maxError : ℚ) (seed : ℕ) : LoopState :=
  ransacLoop inp maxError inp.maxIter (initState inp seed)

/-- Modelled from the spec (§4.3): the robust fundamental estimator.  It fails
("no consensus") when no model's inlier count reaches the minimal sample size;
otherwise it optionally refits on the final inlier set and re-thresholds, so
the reported inlier set always matches the returned matrix. -/
def robustFundamental (inp : RansacIn) (maxError : ℚ) (seed : ℕ) : Option Best :=
  match (ransacRun inp maxError seed).best with
  | none => none
  | some b =>
      if b.score < inp.s then none
      else
        match inp.refit with
        | none => some b
        | some rf => some (candBest inp maxError (rf (b.inliers.map (pairAt inp))))

/-- The 8-point robust entry point: minimal sample size 8. -/
def fundamentalFromCorrespondences8PointRobust (pts1 pts2 : List Pt) (N : ℕ)
    (maxError p : ℚ) (maxIter : ℕ) (solver : List (Pt × Pt) → List SVD3)
    (refit : Option (List (Pt × Pt) → SVD3)) (seed : ℕ) : Option Best :=
  robustFundamental ⟨pts1, pts2, N, 8, p, maxIter, solver, refit⟩ maxError seed

/-- The 7-point robust entry point: minimal sample size 7 (the solver returns
1–3 candidates per sample). -/
def fundamentalFromCorrespondences7PointRobust (pts1 pts2 : List Pt) (N : ℕ)
    (maxError p : ℚ) (maxIter : ℕ) (solver : List (Pt × Pt) → List SVD3)
    (refit : Option (List (Pt × Pt) → SVD3)) (seed : ℕ) : Option Best :=
  robustFundamental ⟨pts1, pts2, N, 7, p, maxIter, solver, refit⟩ maxError seed

/-- Invariant of every model the estimator reports: rank ≤ 2 is enforced, the
inlier list is exactly the thresholding of the reported matrix, and the score
is the inlier count. -/
def GoodBest (inp : RansacIn) (maxError : ℚ) (b : Best) : Prop :=
  b.F.rank ≤ 2 ∧ b.inliers = inlierIndices inp.pts1 inp.pts2 inp.N maxError b.F ∧
    b.score = b.inliers.length

/-- Coupling order on best-so-far models: whenever the first run holds a model,
the second holds one at least as good. -/
def bestLe (b1 b2 : Option Best) : Prop :=
  ∀ x, b1 = some x → ∃ y, b2 = some y ∧ x.score ≤ y.score

/-! ### Composition of core and wrapper, and concrete evaluation inputs -/

/-- The full `motion_from_essential_and_correspondence` call: spec-modelled core
composed with the marshaling wrapper embedded from the source. -/
def motionFromEssentialAndCorrespondenceC (U V : Mat3)
    (depth : EssentialCandidate → ℚ × ℚ) (Rm0 : Mat3) (tm0 : Fin 3 → ℚ)
    (rbuf0 : Fin 9 → ℚ) : MotionWrapperOut :=
  motionWrapper ((motionFromEssentialAndCorrespondence U V depth).map fun c => (c.R, c.t))
    Rm0 tm0 rbuf0

/-- Left factor of `diag(a, b, 0)`, used to bound its rank by 2. -/
def Pmat (a b : ℚ) : Matrix (Fin 3) (Fin 2) ℚ := !![a, 0; 0, b; 0, 0]

/-- Right factor of `diag(a, b, 0)`. -/
def Qmat : Matrix (Fin 2) (Fin 3) ℚ := !![1, 0, 0; 0, 1, 0]

/-- A depth assignment under which no decomposition candidate passes the
positive-depth test. -/
def depthNone : EssentialCandidate → ℚ × ℚ := fun _ => (-1, -1)

/-- A depth assignment under which exactly one candidate (the one with rotation
`Wmatᵀ` and translation `+u3`) passes the positive-depth test when `U = V = 1`. -/
def depthOne : EssentialCandidate → ℚ × ℚ := fun c => (c.t 2, c.R 0 1)

/-- The candidate selected by `motionFromEssentialAndCorrespondence 1 1 depthOne`. -/
def candW : EssentialCandidate := ⟨fixDet (1 * Wmatᵀ * (1 : Mat3)ᵀ), thirdCol 1⟩

/-- Concrete left points: with `FA = diag(1,0,0)` the symmetric epipolar
distance of pair `i` is `u_i² + p_i²`, with `FB = diag(0,1,0)` it is
`v_i² + q_i²`; the coordinates are chosen so that `FA` has 1 inlier below
threshold 10 and 8 below 20, while `FB` has 9 inliers below both. -/
def ptsL : List Pt :=
  [(2, 1), (4, 1), (4, 2), (4, 1), (4, 2), (4, -1), (4, 1), (4, -2), (3, 1), (3, 5)]

/-- Concrete right points; see `ptsL`. -/
def ptsR : List Pt :=
  [(2, 1), (1, 1), (1, 1), (1, 2), (1, 2), (1, 1), (1, -1), (1, 1), (4, 1), (4, 5)]

/-- A concrete solver: the first sampled pair under seed 1 is
`((2,1), (2,1))` at iteration 0 and `((4,1), (1,-1))` at iteration 1, so the
solver yields the factors of `FA = diag(1,0,0)` at iteration 0 and those of
`FB = diag(0,1,0)` afterwards. -/
def cexSolver : List (Pt × Pt) → List SVD3 := fun sample =>
  if sample.head? = some ((2, 1), (2, 1)) then [⟨1, 1, 0, 1⟩] else [⟨1, 0, 1, 1⟩]

/-- Concrete estimation input with `outliers_probability = 21/25`: large enough
that one good sample shrinks the adaptive budget to a single iteration. -/
def cexA : RansacIn := ⟨ptsL, ptsR, 10, 8, 21 / 25, 2, cexSolver, none⟩

/-- Concrete estimation input with `outliers_probability = 1/100`: so demanding
that the adaptive budget never drops below the hard maximum. -/
def cexW : RansacIn := ⟨ptsL, ptsR, 10, 8, 1 / 100, 2, cexSolver, none⟩

/-- The model reported by `robustFundamental cexW 10 1`: `FB` with its 9
inliers. -/
def bestW : Best := ⟨enforceRank2 ⟨1, 0, 1, 1⟩, 9, [0, 1, 2, 3, 4, 5, 6, 7, 8]⟩

/-- Left points of the refit example: every pair has `u = p = 4`, so under
`FA = diag(1,0,0)` every distance is `u² + p² = 32`; under `FB = diag(0,1,0)`
the distances `v² + q²` are 2 for indices 0–7, 13 for index 8 and 50 for
index 9, so `FB` has 8 inliers below threshold 10 and 9 below 20. -/
def ptsL2 : List Pt :=
  [(4, 1), (4, 1), (4, 1), (4, 1), (4, 1), (4, 1), (4, 1), (4, 1), (4, 2), (4, 5)]

/-- Right points of the refit example; see `ptsL2`. -/
def ptsR2 : List Pt :=
  [(4, 1), (4, 1), (4, 1), (4, 1), (4, 1), (4, 1), (4, 1), (4, 1), (4, 3), (4, 5)]

/-- A refit abstraction: from the 8 inlier pairs of the lower-threshold run it
rebuilds `FB = diag(0,1,0)`, from any other inlier set the unrelated
`FA = diag(1,0,0)`. -/
def cexRefit : List (Pt × Pt) → SVD3 := fun pts =>
  if pts.length = 8 then ⟨1, 0, 1, 1⟩ else ⟨1, 1, 0, 1⟩

/-- Concrete estimation input with the post-hoc refit enabled and
`outliers_probability = 1/100`, so the adaptive budget never drops below the
hard maximum: the two thresholds give the refit different inlier sets, whose
refit matrices have unrelated re-thresholded counts. -/
def cexR : RansacIn :=
  ⟨ptsL2, ptsR2, 10, 8, 1 / 100, 2, fun _ => [⟨1, 0, 1, 1⟩], some cexRefit⟩

/-! ## Theorems -/

attribute [local semireducible] Rat.add Rat.mul Rat.inv Rat.sub

/-- Each of the nine writes `F[y*3+x] = Fm(y,x)` lands at the row-major
position and survives to the end of the double loop. -/
theorem writeRowMajor_apply (buf : Fin 9 → ℚ) (Fm : Mat3) (y x : Fin 3) :
    writeRowMajor buf Fm ⟨y.1 * 3 + x.1, by have := y.isLt; have := x.isLt; omega⟩ =
      Fm y x := by
  have h3 : List.finRange 3 = [0, 1, 2] := by decide
  fin_cases y <;> fin_cases x <;>
    simp [writeRowMajor, h3, Function.update, Fin.ext_iff] <;>
    first
    | rfl
    | exact fun h => absurd h (by decide)

/-- C10: with a null `inliers` pointer the wrapper still runs to completion:
the returned score is the inner call's score, every entry of the `F` buffer is
written row-major from the result matrix, and neither the inlier buffer nor
`*inliers_sz` is touched. -/
theorem fundWrapper_nullInliers (ret : ℚ) (Fm : Mat3) (vec : List ℕ)
    (fbuf0 : Fin 9 → ℚ) (buf0 : List ℕ) (sz0 : ℕ) :
    (fundWrapper ret Fm vec fbuf0 false buf0 sz0).ret = ret ∧
    (fundWrapper ret Fm vec fbuf0 false buf0 sz0).inlierBytes = buf0 ∧
    (fundWrapper ret Fm vec fbuf0 false buf0 sz0).inliersSz = sz0 ∧
    ∀ y x : Fin 3,
      (fundWrapper ret Fm vec fbuf0 false buf0 sz0).fbuf
          ⟨y.1 * 3 + x.1, by have := y.isLt; have := x.isLt; omega⟩ = Fm y x := by
  refine ⟨rfl, rfl, rfl, ?_⟩
  intro y x
  exact writeRowMajor_apply fbuf0 Fm y x

/-- C1 (code bug): the wrapper's `memcpy(inliers, inliers_vec.data(),
inliers_vec.size())` transfers `k` bytes where the contract requires `k`
4-byte `int` elements.  With `inliers_vec = [0,1,2,3]` and a caller buffer
previously holding `0xFF` bytes, the caller reads back
`[0, 4294967295, 4294967295, 4294967295]` instead of `[0,1,2,3]` (while
`*inliers_sz` is still set to 4); the element-count copy of the contract
does reproduce `[0,1,2,3]`. -/
theorem inlierCopy_truncates :
    (fundWrapper 0 1 [0, 1, 2, 3] (fun _ => 0) true (List.replicate 16 255) 0).inliersSz
        = 4 ∧
    bytesToInts
        (fundWrapper 0 1 [0, 1, 2, 3] (fun _ => 0) true
          (List.replicate 16 255) 0).inlierBytes
        = [0, 4294967295, 4294967295, 4294967295] ∧
    bytesToInts
        (fundWrapper 0 1 [0, 1, 2, 3] (fun _ => 0) true
          (List.replicate 16 255) 0).inlierBytes
        ≠ [0, 1, 2, 3] ∧
    bytesToInts (writeInliersElems true (List.replicate 16 255) 0 [0, 1, 2, 3]).1
        = [0, 1, 2, 3] := by
  refine ⟨rfl, rfl, ?_, rfl⟩
  decide

/-- C3 counterexample: on a failing call the wrapper reports status 0 but still
overwrites the caller's `R` buffer with the function's uninitialized stack
matrix: two runs differing only in that arbitrary stack content produce two
different `R` outputs, so the failure outputs are arbitrary values, not
empty/sentinel ones. -/
theorem failureOutputsArbitrary :
    motionFromEssentialAndCorrespondence 1 1 depthNone = none ∧
    (motionFromEssentialAndCorrespondenceC 1 1 depthNone 0 0 0).status = 0 ∧
    (motionFromEssentialAndCorrespondenceC 1 1 depthNone 1 0 0).status = 0 ∧
    (motionFromEssentialAndCorrespondenceC 1 1 depthNone 0 0 0).rbuf ≠
      (motionFromEssentialAndCorrespondenceC 1 1 depthNone 1 0 0).rbuf := by
  refine ⟨by decide, rfl, rfl, ?_⟩
  intro h
  have h0 := congrFun h 0
  revert h0
  decide

/-- C3 amended: failures are signalled explicitly (status 0 exactly when no
unique candidate exists) and successes write the selected candidate's pose, but
the `R`/`t` buffers are written unconditionally: on failure they receive the
uninitialized stack temporaries `Rm0`/`tm0`, not sentinel values. -/
theorem motionWrapper_failure_explicit (U V : Mat3)
    (depth : EssentialCandidate → ℚ × ℚ) (Rm0 : Mat3) (tm0 : Fin 3 → ℚ)
    (rbuf0 : Fin 9 → ℚ) :
    (motionFromEssentialAndCorrespondence U V depth = none →
      (motionFromEssentialAndCorrespondenceC U V depth Rm0 tm0 rbuf0).status = 0 ∧
      (motionFromEssentialAndCorrespondenceC U V depth Rm0 tm0 rbuf0).rbuf =
        writeRowMajor rbuf0 Rm0 ∧
      (motionFromEssentialAndCorrespondenceC U V depth Rm0 tm0 rbuf0).tbuf = tm0) ∧
    (∀ c, motionFromEssentialAndCorrespondence U V depth = some c →
      (motionFromEssentialAndCorrespondenceC U V depth Rm0 tm0 rbuf0).status = 1 ∧
      (motionFromEssentialAndCorrespondenceC U V depth Rm0 tm0 rbuf0).rbuf =
        writeRowMajor rbuf0 c.R ∧
      (motionFromEssentialAndCorrespondenceC U V depth Rm0 tm0 rbuf0).tbuf = c.t) := by
  constructor
  · intro h
    simp [motionFromEssentialAndCorrespondenceC, motionWrapper, h]
  · intro c h
    simp [motionFromEssentialAndCorrespondenceC, motionWrapper, h]

/-- Closed instance of `motionWrapper_failure_explicit`: the all-negative depth
assignment makes the call fail with status 0 and the buffers receive the
arbitrary initial temporaries. -/
theorem motionWrapper_failure_explicit_witness :
    motionFromEssentialAndCorrespondence 1 1 depthNone = none ∧
    ((motionFromEssentialAndCorrespondenceC 1 1 depthNone 1 0 0).status = 0 ∧
      (motionFromEssentialAndCorrespondenceC 1 1 depthNone 1 0 0).rbuf =
        writeRowMajor 0 1 ∧
      (motionFromEssentialAndCorrespondenceC 1 1 depthNone 1 0 0).tbuf = 0) :=
  ⟨by decide, (motionWrapper_failure_explicit 1 1 depthNone 1 0 0).1 (by decide)⟩

/-- `pickUnique` succeeds exactly on singleton lists. -/
theorem pickUnique_isSome {α : Type} (l : List α) :
    (pickUnique l).isSome = true ↔ l.length = 1 := by
  match l with
  | [] => simp [pickUnique]
  | [a] => simp [pickUnique]
  | a :: b :: t => simp [pickUnique]

/-- `pickUnique` returns an element of its list. -/
theorem pickUnique_mem {α : Type} (l : List α) (c : α) (h : pickUnique l = some c) :
    c ∈ l := by
  match l, h with
  | [a], h =>
    have ha : a = c := by simpa [pickUnique] using h
    simp [ha]

/-- C2: the wrapped `motion_from_essential_and_correspondence` returns status 1
exactly when exactly one of the four decomposition candidates passes the
positive-depth test, and returns status 0 (never a picked candidate) when zero
or several pass. -/
theorem motionStatus_iff_unique (U V : Mat3) (depth : EssentialCandidate → ℚ × ℚ)
    (Rm0 : Mat3) (tm0 : Fin 3 → ℚ) (rbuf0 : Fin 9 → ℚ) :
    ((motionFromEssentialAndCorrespondenceC U V depth Rm0 tm0 rbuf0).status = 1 ↔
      (motionFromEssential U V).countP (passesDepth depth) = 1) ∧
    ((motionFromEssentialAndCorrespondenceC U V depth Rm0 tm0 rbuf0).status = 0 ∨
      (motionFromEssentialAndCorrespondenceC U V depth Rm0 tm0 rbuf0).status = 1) := by
  have hstat : (motionFromEssentialAndCorrespondenceC U V depth Rm0 tm0 rbuf0).status =
      if (motionFromEssentialAndCorrespondence U V depth).isSome then 1 else 0 := by
    simp [motionFromEssentialAndCorrespondenceC, motionWrapper]
  have hiff : (motionFromEssentialAndCorrespondence U V depth).isSome = true ↔
      ((motionFromEssential U V).filter (passesDepth depth)).length = 1 :=
    pickUnique_isSome _
  constructor
  · rw [hstat, List.countP_eq_length_filter, ← hiff]
    by_cases h : (motionFromEssentialAndCorrespondence U V depth).isSome = true <;>
      simp [h]
  · rw [hstat]
    by_cases h : (motionFromEssentialAndCorrespondence U V depth).isSome = true <;>
      simp [h]

/-- `det3` is the determinant. -/
theorem det3_eq (A : Mat3) : det3 A = A.det := by
  rw [Matrix.det_fin_three]; unfold det3; ring

/-- The decomposition's `W` matrix is orthogonal. -/
theorem Wmat_orth : Wmatᵀ * Wmat = 1 := by
  decide

/-- The decomposition's `W` matrix is a rotation. -/
theorem Wmat_det : Wmat.det = 1 := by
  rw [← det3_eq]; decide

/-- Determinant correction does not change `RᵀR`. -/
theorem fixDet_transpose_mul (A : Mat3) : (fixDet A)ᵀ * fixDet A = Aᵀ * A := by
  unfold fixDet
  split
  · simp [Matrix.transpose_neg, Matrix.neg_mul, Matrix.mul_neg]
  · rfl

/-- If `det A = ±1`, the corrected matrix has determinant 1. -/
theorem fixDet_det (A : Mat3) (h : A.det = 1 ∨ A.det = -1) : (fixDet A).det = 1 := by
  unfold fixDet
  split
  · next h' =>
    rw [det3_eq] at h'
    rw [Matrix.det_neg, h']
    norm_num [Fintype.card_fin]
  · next h' =>
    rw [det3_eq] at h'
    rcases h with h | h
    · exact h
    · exact absurd h h'

/-- A product `U M Vᵀ` of orthogonal matrices is orthogonal. -/
theorem orth_mul (U V M : Mat3) (hU : Uᵀ * U = 1) (hV : Vᵀ * V = 1)
    (hM : Mᵀ * M = 1) : (U * M * Vᵀ)ᵀ * (U * M * Vᵀ) = 1 := by
  have h1 : (U * M * Vᵀ)ᵀ * (U * M * Vᵀ) = V * (Mᵀ * ((Uᵀ * U) * (M * Vᵀ))) := by
    simp only [Matrix.transpose_mul, Matrix.transpose_transpose, Matrix.mul_assoc]
  rw [h1, hU, Matrix.one_mul, ← Matrix.mul_assoc Mᵀ M Vᵀ, hM, Matrix.one_mul,
    Matrix.mul_eq_one_comm.mp hV]

/-- The determinant of a product of two orthogonal factors and a rotation is
±1. -/
theorem orth_mul_det (U V M : Mat3) (hU : Uᵀ * U = 1) (hV : Vᵀ * V = 1)
    (hM : M.det = 1) : (U * M * Vᵀ).det = 1 ∨ (U * M * Vᵀ).det = -1 := by
  have hu : U.det * U.det = 1 := by
    have h := congrArg Matrix.det hU
    rwa [Matrix.det_mul, Matrix.det_transpose, Matrix.det_one, mul_comm] at h
  have hv : V.det * V.det = 1 := by
    have h := congrArg Matrix.det hV
    rwa [Matrix.det_mul, Matrix.det_transpose, Matrix.det_one, mul_comm] at h
  rcases mul_self_eq_one_iff.mp hu with h | h <;>
    rcases mul_self_eq_one_iff.mp hv with h' | h' <;>
      simp [Matrix.det_mul, Matrix.det_transpose, hM, h, h']

/-- Every decomposition candidate's rotation is one of the two corrected
products. -/
theorem mem_motionFromEssential_R (U V : Mat3) (c : EssentialCandidate)
    (h : c ∈ motionFromEssential U V) :
    c.R = fixDet (U * Wmat * Vᵀ) ∨ c.R = fixDet (U * Wmatᵀ * Vᵀ) := by
  simp only [motionFromEssential, List.mem_cons, List.mem_singleton,
    List.not_mem_nil, or_false] at h
  rcases h with h | h | h | h <;> subst h <;> simp

/-- C9: on success, the selected candidate's rotation is orthonormal with
determinant +1 (the −1 case having been negated away), and the wrapper's `t`
output is exactly the selected candidate's translation. -/
theorem motionSuccess_rotation (U V : Mat3) (depth : EssentialCandidate → ℚ × ℚ)
    (c : EssentialCandidate) (hU : Uᵀ * U = 1) (hV : Vᵀ * V = 1)
    (h : motionFromEssentialAndCorrespondence U V depth = some c) :
    (c.R)ᵀ * c.R = 1 ∧ c.R.det = 1 ∧
      ∀ Rm0 tm0 rbuf0,
        (motionFromEssentialAndCorrespondenceC U V depth Rm0 tm0 rbuf0).tbuf = c.t := by
  have hmem : c ∈ motionFromEssential U V :=
    List.mem_of_mem_filter (pickUnique_mem _ c h)
  have hWT : (Wmatᵀ)ᵀ * Wmatᵀ = 1 := by
    rw [Matrix.transpose_transpose]
    exact Matrix.mul_eq_one_comm.mp Wmat_orth
  have hWTdet : (Wmatᵀ).det = 1 := by rw [Matrix.det_transpose]; exact Wmat_det
  have hrest : ∀ Rm0 tm0 rbuf0,
      (motionFromEssentialAndCorrespondenceC U V depth Rm0 tm0 rbuf0).tbuf = c.t := by
    intro Rm0 tm0 rbuf0
    simp [motionFromEssentialAndCorrespondenceC, motionWrapper, h]
  rcases mem_motionFromEssential_R U V c hmem with hR | hR
  · exact ⟨by rw [hR, fixDet_transpose_mul]; exact orth_mul U V Wmat hU hV Wmat_orth,
      by rw [hR]; exact fixDet_det _ (orth_mul_det U V Wmat hU hV Wmat_det), hrest⟩
  · exact ⟨by rw [hR, fixDet_transpose_mul]; exact orth_mul U V Wmatᵀ hU hV hWT,
      by rw [hR]; exact fixDet_det _ (orth_mul_det U V Wmatᵀ hU hV hWTdet), hrest⟩

/-- Closed instance of `motionSuccess_rotation` at `U = V = 1` with a depth
assignment under which exactly the `(Wmatᵀ, +u3)` candidate passes. -/
theorem motionSuccess_rotation_witness :
    ((1 : Mat3)ᵀ * 1 = 1) ∧
    motionFromEssentialAndCorrespondence 1 1 depthOne = some candW ∧
    ((candW.R)ᵀ * candW.R = 1 ∧ candW.R.det = 1 ∧
      ∀ Rm0 tm0 rbuf0,
        (motionFromEssentialAndCorrespondenceC 1 1 depthOne Rm0 tm0 rbuf0).tbuf =
          candW.t) :=
  ⟨by decide, by decide,
    motionSuccess_rotation 1 1 depthOne candW (by decide) (by decide) (by decide)⟩

/-- Scoring a candidate never raises the iteration budget. -/
theorem updateOne_budget_le (inp : RansacIn) (maxError : ℚ)
    (st : Option Best × ℕ) (f : SVD3) :
    (updateOne inp maxError st f).2 ≤ st.2 := by
  unfold updateOne
  dsimp only
  split
  · exact min_le_left _ _
  · exact le_refl _

/-- Scoring a whole candidate list never raises the budget. -/
theorem foldl_updateOne_budget_le (inp : RansacIn) (maxError : ℚ)
    (cands : List SVD3) (st : Option Best × ℕ) :
    (cands.foldl (updateOne inp maxError) st).2 ≤ st.2 := by
  induction cands generalizing st with
  | nil => exact le_refl _
  | cons f t ih =>
    exact le_trans (ih (updateOne inp maxError st f)) (updateOne_budget_le inp maxError st f)

/-- One iteration never raises the budget. -/
theorem ransacStep_budget_le (inp : RansacIn) (maxError : ℚ) (st : LoopState) :
    (ransacStep inp maxError st).budget ≤ st.budget :=
  foldl_updateOne_budget_le inp maxError _ (st.best, st.budget)

/-- The loop executes at most `fuel` further iterations. -/
theorem ransacLoop_iters_le (inp : RansacIn) (maxError : ℚ) :
    ∀ (fuel : ℕ) (st : LoopState),
      (ransacLoop inp maxError fuel st).iters ≤ st.iters + fuel := by
  intro fuel
  induction fuel with
  | zero => intro st; simp [ransacLoop]
  | succ n ih =>
    intro st
    unfold ransacLoop
    split
    · have h := ih (ransacStep inp maxError st)
      have hs : (ransacStep inp maxError st).iters = st.iters + 1 := rfl
      omega
    · omega

/-- The loop never raises the budget. -/
theorem ransacLoop_budget_le (inp : RansacIn) (maxError : ℚ) :
    ∀ (fuel : ℕ) (st : LoopState),
      (ransacLoop inp maxError fuel st).budget ≤ st.budget := by
  intro fuel
  induction fuel with
  | zero => intro st; simp [ransacLoop]
  | succ n ih =>
    intro st
    unfold ransacLoop
    split
    · exact le_trans (ih (ransacStep inp maxError st)) (ransacStep_budget_le inp maxError st)
    · exact le_refl _

/-- One unfolding of the loop. -/
theorem ransacLoop_succ (inp : RansacIn) (maxError : ℚ) (fuel : ℕ) (st : LoopState) :
    ransacLoop inp maxError (fuel + 1) st =
      if st.it < st.budget then ransacLoop inp maxError fuel (ransacStep inp maxError st)
      else st := rfl

/-- Once the fuel covers the remaining budget, adding more fuel changes
nothing: the loop's exit is the budget condition, not fuel exhaustion. -/
theorem ransacLoop_stable (inp : RansacIn) (maxError : ℚ) :
    ∀ (fuel : ℕ) (st : LoopState), st.budget ≤ st.it + fuel →
      ransacLoop inp maxError (fuel + 1) st = ransacLoop inp maxError fuel st := by
  intro fuel
  induction fuel with
  | zero =>
    intro st h
    have : ¬ st.it < st.budget := by omega
    simp [ransacLoop_succ, ransacLoop, this]
  | succ n ih =>
    intro st h
    rw [ransacLoop_succ inp maxError (n + 1) st, ransacLoop_succ inp maxError n st]
    by_cases hc : st.it < st.budget
    · simp only [hc, if_true]
      apply ih
      have hb : (ransacStep inp maxError st).budget ≤ st.budget :=
        ransacStep_budget_le inp maxError st
      have hi : (ransacStep inp maxError st).it = st.it + 1 := rfl
      omega
    · simp [hc]

/-- With the initial state, any fuel beyond the hard maximum is irrelevant. -/
theorem ransacLoop_fuel_add (inp : RansacIn) (maxError : ℚ) (seed : ℕ) :
    ∀ extra : ℕ,
      ransacLoop inp maxError (inp.maxIter + extra) (initState inp seed) =
        ransacRun inp maxError seed := by
  intro extra
  induction extra with
  | zero => rfl
  | succ n ih =>
    rw [← ih]
    have h : (initState inp seed).budget ≤ (initState inp seed).it + (inp.maxIter + n) := by
      simp [initState]
    exact ransacLoop_stable inp maxError (inp.maxIter + n) (initState inp seed) h

/-- C6: every robust-estimation call terminates within the hard iteration
maximum: the number of executed iterations is at most `maxIter`, the adaptive
budget is never raised above the initial maximum, and granting the loop any
extra fuel beyond `maxIter` cannot change the result — for every
`outliers_probability`, including values whose theoretical iteration count is
arbitrarily large. -/
theorem ransacRun_terminates (inp : RansacIn) (maxError : ℚ) (seed : ℕ) :
    (ransacRun inp maxError seed).iters ≤ inp.maxIter ∧
    (ransacRun inp maxError seed).budget ≤ inp.maxIter ∧
    ∀ extra : ℕ,
      ransacLoop inp maxError (inp.maxIter + extra) (initState inp seed) =
        ransacRun inp maxError seed := by
  refine ⟨?_, ?_, ransacLoop_fuel_add inp maxError seed⟩
  · have h := ransacLoop_iters_le inp maxError inp.maxIter (initState inp seed)
    simpa [initState] using h
  · have h := ransacLoop_budget_le inp maxError inp.maxIter (initState inp seed)
    simpa [initState] using h

/-- `diag(a, b, 0)` factors through `Fin 2`. -/
theorem diagonal_factor (a b : ℚ) :
    Matrix.diagonal ![a, b, 0] = Pmat a b * Qmat := by
  ext i j
  fin_cases i <;> fin_cases j <;>
    simp [Pmat, Qmat, Matrix.mul_apply, Fin.sum_univ_two, Matrix.diagonal]

/-- Zeroing the smallest singular value enforces rank ≤ 2. -/
theorem rank_enforceRank2_le (f : SVD3) : (enforceRank2 f).rank ≤ 2 := by
  unfold enforceRank2
  calc (f.U * Matrix.diagonal ![f.sv1, f.sv2, 0] * (f.V)ᵀ).rank
      ≤ (f.U * Matrix.diagonal ![f.sv1, f.sv2, 0]).rank := Matrix.rank_mul_le_left _ _
    _ ≤ (Matrix.diagonal ![f.sv1, f.sv2, 0]).rank := Matrix.rank_mul_le_right _ _
    _ = (Pmat f.sv1 f.sv2 * Qmat).rank := by rw [diagonal_factor]
    _ ≤ (Pmat f.sv1 f.sv2).rank := Matrix.rank_mul_le_left _ _
    _ ≤ 2 := Matrix.rank_le_width _

/-- Every candidate model built by the estimator satisfies the reported-model
invariant. -/
theorem candBest_good (inp : RansacIn) (maxError : ℚ) (f : SVD3) :
    GoodBest inp maxError (candBest inp maxError f) :=
  ⟨rank_enforceRank2_le f, rfl, rfl⟩

/-- Scoring a candidate preserves the invariant of the best model. -/
theorem updateOne_good (inp : RansacIn) (maxError : ℚ) (st : Option Best × ℕ)
    (f : SVD3) (hst : ∀ b, st.1 = some b → GoodBest inp maxError b) :
    ∀ b, (updateOne inp maxError st f).1 = some b → GoodBest inp maxError b := by
  unfold updateOne
  dsimp only
  split
  · intro b hb
    cases hb
    exact candBest_good inp maxError f
  · exact hst

/-- Scoring a candidate list preserves the invariant. -/
theorem foldl_updateOne_good (inp : RansacIn) (maxError : ℚ) (cands : List SVD3) :
    ∀ st : Option Best × ℕ, (∀ b, st.1 = some b → GoodBest inp maxError b) →
      ∀ b, (cands.foldl (updateOne inp maxError) st).1 = some b →
        GoodBest inp maxError b := by
  induction cands with
  | nil => intro st hst; exact hst
  | cons f t ih =>
    intro st hst
    exact ih _ (updateOne_good inp maxError st f hst)

/-- One iteration preserves the invariant. -/
theorem ransacStep_good (inp : RansacIn) (maxError : ℚ) (st : LoopState)
    (hst : ∀ b, st.best = some b → GoodBest inp maxError b) :
    ∀ b, (ransacStep inp maxError st).best = some b → GoodBest inp maxError b :=
  foldl_updateOne_good inp maxError _ (st.best, st.budget) hst

/-- The loop preserves the invariant. -/
theorem ransacLoop_good (inp : RansacIn) (maxError : ℚ) :
    ∀ (fuel : ℕ) (st : LoopState),
      (∀ b, st.best = some b → GoodBest inp maxError b) →
      ∀ b, (ransacLoop inp maxError fuel st).best = some b →
        GoodBest inp maxError b := by
  intro fuel
  induction fuel with
  | zero => intro st hst; exact hst
  | succ n ih =>
    intro st hst
    rw [ransacLoop_succ]
    split
    · exact ih _ (ransacStep_good inp maxError st hst)
    · exact hst

/-- Every model a successful call reports satisfies the invariant: rank ≤ 2,
inliers = thresholding of the reported matrix, score = inlier count. -/
theorem robustFundamental_good (inp : RansacIn) (maxError : ℚ) (seed : ℕ)
    (out : Best) (h : robustFundamental inp maxError seed = some out) :
    GoodBest inp maxError out := by
  have hrun : ∀ b, (ransacRun inp maxError seed).best = some b →
      GoodBest inp maxError b := by
    apply ransacLoop_good inp maxError inp.maxIter (initState inp seed)
    intro b hb
    simp [initState] at hb
  unfold robustFundamental at h
  rcases hb : (ransacRun inp maxError seed).best with _ | b
  · rw [hb] at h
    cases h
  · rw [hb] at h
    dsimp only at h
    by_cases hs : b.score < inp.s
    · simp [hs] at h
    · simp only [hs, if_false] at h
      rcases hr : inp.refit with _ | rf
      · rw [hr] at h
        have hbo : b = out := by injection h
        subst hbo
        exact hrun b hb
      · rw [hr] at h
        have hbo : candBest inp maxError (rf (b.inliers.map (pairAt inp))) = out := by
          injection h
        subst hbo
        exact candBest_good inp maxError _

/-- C5: every fundamental matrix written out by a successful robust call has
rank at most 2 — the rank-2 structure is enforced on every returned model,
including the refit path. -/
theorem robustFundamental_rank (inp : RansacIn) (maxError : ℚ) (seed : ℕ)
    (out : Best) (h : robustFundamental inp maxError seed = some out) :
    out.F.rank ≤ 2 :=
  (robustFundamental_good inp maxError seed out h).1

/-- Closed instance of `robustFundamental_rank` on a successful concrete run. -/
theorem robustFundamental_rank_witness :
    robustFundamental cexW 10 1 = some bestW ∧ bestW.F.rank ≤ 2 :=
  ⟨by decide, robustFundamental_rank cexW 10 1 bestW (by decide)⟩

/-- C8: re-thresholding the correspondence set against the returned matrix with
the same `max_error` reproduces exactly the reported inlier set (also when the
post-hoc refit runs, since the estimator re-thresholds after refitting); the
reported score is that set's size. -/
theorem robustFundamental_rethreshold (inp : RansacIn) (maxError : ℚ) (seed : ℕ)
    (out : Best) (h : robustFundamental inp maxError seed = some out) :
    out.inliers = inlierIndices inp.pts1 inp.pts2 inp.N maxError out.F ∧
      out.score = out.inliers.length :=
  ⟨(robustFundamental_good inp maxError seed out h).2.1,
    (robustFundamental_good inp maxError seed out h).2.2⟩

/-- Closed instance of `robustFundamental_rethreshold` on a successful concrete
run. -/
theorem robustFundamental_rethreshold_witness :
    robustFundamental cexW 10 1 = some bestW ∧
      (bestW.inliers = inlierIndices cexW.pts1 cexW.pts2 cexW.N 10 bestW.F ∧
        bestW.score = bestW.inliers.length) :=
  ⟨by decide, robustFundamental_rethreshold cexW 10 1 bestW (by decide)⟩

/-- C4: the estimator is a pure function of the correspondences, the
parameters, and the caller-supplied RNG seed — there is no other state, so two
runs with equal inputs and equal seeds return identical outputs. -/
theorem robustFundamental_deterministic (inp1 inp2 : RansacIn) (e1 e2 : ℚ)
    (seed1 seed2 : ℕ) (hi : inp1 = inp2) (he : e1 = e2) (hs : seed1 = seed2) :
    robustFundamental inp1 e1 seed1 = robustFundamental inp2 e2 seed2 := by
  subst hi
  subst he
  subst hs
  rfl

/-- Closed instance of `robustFundamental_deterministic`. -/
theorem robustFundamental_deterministic_witness :
    cexW = cexW ∧ (10 : ℚ) = 10 ∧ (1 : ℕ) = 1 ∧
      robustFundamental cexW 10 1 = robustFundamental cexW 10 1 :=
  ⟨rfl, rfl, rfl, robustFundamental_deterministic cexW cexW 10 10 1 1 rfl rfl rfl⟩

/-- C7 counterexample, in two parts, each with fixed correspondences, fixed
`outliers_probability` and fixed seed.  Budget part (`cexA`, no refit): raising
`max_error` from 10 to 20 makes the first sample score 8 inliers, which shrinks
the adaptive budget to a single iteration, so the strictly better second sample
is never examined — the reported inlier count drops from 9 to 8.  Refit part
(`cexR`, budgets pinned at the hard maximum in both runs): the two thresholds
hand the post-hoc refit different inlier sets, whose refit matrices are
unrelated, and the re-thresholded reported count drops from 8 to 0. -/
theorem inlierCount_not_monotone :
    ((10 : ℚ) ≤ 20 ∧ cexA.refit = none ∧
      (robustFundamental cexA 10 1).map (fun b => b.inliers.length) = some 9 ∧
      (robustFundamental cexA 20 1).map (fun b => b.inliers.length) = some 8) ∧
    ((ransacRun cexR 10 1).budget = cexR.maxIter ∧
      (ransacRun cexR 20 1).budget = cexR.maxIter ∧
      (robustFundamental cexR 10 1).map (fun b => b.inliers.length) = some 8 ∧
      (robustFundamental cexR 20 1).map (fun b => b.inliers.length) = some 0) := by
  refine ⟨⟨by norm_num, rfl, by decide, by decide⟩,
    ⟨by decide, by decide, by decide, by decide⟩⟩

/-- Thresholding any fixed model is monotone in `max_error`. -/
theorem inlierIndices_length_mono (pts1 pts2 : List Pt) (N : ℕ) (F : Mat3)
    (e1 e2 : ℚ) (h : e1 ≤ e2) :
    (inlierIndices pts1 pts2 N e1 F).length ≤
      (inlierIndices pts1 pts2 N e2 F).length := by
  apply List.Sublist.length_le
  apply List.monotone_filter_right
  intro i hi
  simp only [decide_eq_true_eq] at hi ⊢
  exact lt_of_lt_of_le hi h

/-- When a candidate fails to beat the best, a best model exists and is at
least that good. -/
theorem scoreBeats_false {b : Option Best} {n : ℕ} (h : scoreBeats b n = false) :
    ∃ y, b = some y ∧ n ≤ y.score := by
  cases b with
  | none => simp [scoreBeats] at h
  | some y =>
    refine ⟨y, rfl, ?_⟩
    simp [scoreBeats] at h
    omega

/-- When a candidate beats an existing best, it is strictly better. -/
theorem scoreBeats_true_some {y : Best} {n : ℕ} (h : scoreBeats (some y) n = true) :
    y.score < n := by
  simpa [scoreBeats] using h

/-- Coupled candidate update: scoring one candidate at two thresholds
`e1 ≤ e2` preserves the coupling order of best models. -/
theorem updateOne_bestLe (inp : RansacIn) (e1 e2 : ℚ) (h : e1 ≤ e2)
    (st1 st2 : Option Best × ℕ) (f : SVD3) (hb : bestLe st1.1 st2.1) :
    bestLe (updateOne inp e1 st1 f).1 (updateOne inp e2 st2 f).1 := by
  have hn : (candBest inp e1 f).score ≤ (candBest inp e2 f).score :=
    inlierIndices_length_mono inp.pts1 inp.pts2 inp.N (enforceRank2 f) e1 e2 h
  unfold updateOne
  dsimp only
  cases hc1 : scoreBeats st1.1 (candBest inp e1 f).score with
  | false =>
    cases hc2 : scoreBeats st2.1 (candBest inp e2 f).score with
    | false =>
      simp only [hc1, hc2, Bool.false_eq_true, if_false]
      exact hb
    | true =>
      simp only [hc1, hc2, Bool.false_eq_true, if_false, if_true]
      intro x hx
      rcases hb x hx with ⟨y2, hy2, hxy⟩
      refine ⟨candBest inp e2 f, rfl, ?_⟩
      have hlt : y2.score < (candBest inp e2 f).score :=
        scoreBeats_true_some (hy2 ▸ hc2)
      omega
  | true =>
    cases hc2 : scoreBeats st2.1 (candBest inp e2 f).score with
    | false =>
      simp only [hc1, hc2, Bool.false_eq_true, if_false, if_true]
      intro x hx
      rcases scoreBeats_false hc2 with ⟨y2, hy2, hn2⟩
      have hx' : candBest inp e1 f = x := by injection hx
      refine ⟨y2, hy2, ?_⟩
      rw [← hx']
      omega
    | true =>
      simp only [hc1, hc2, if_true]
      intro x hx
      have hx' : candBest inp e1 f = x := by injection hx
      refine ⟨candBest inp e2 f, rfl, ?_⟩
      rw [← hx']
      exact hn

/-- Coupled candidate-list update. -/
theorem foldl_updateOne_bestLe (inp : RansacIn) (e1 e2 : ℚ) (h : e1 ≤ e2)
    (cands : List SVD3) :
    ∀ st1 st2 : Option Best × ℕ, bestLe st1.1 st2.1 →
      bestLe (cands.foldl (updateOne inp e1) st1).1
        (cands.foldl (updateOne inp e2) st2).1 := by
  induction cands with
  | nil => intro st1 st2 hb; exact hb
  | cons f t ih =>
    intro st1 st2 hb
    exact ih _ _ (updateOne_bestLe inp e1 e2 h st1 st2 f hb)

/-- Coupled iteration: with equal RNG states the same sample is drawn and the
same candidates are scored, preserving the coupling order. -/
theorem ransacStep_bestLe (inp : RansacIn) (e1 e2 : ℚ) (h : e1 ≤ e2)
    (st1 st2 : LoopState) (hrng : st1.rng = st2.rng)
    (hb : bestLe st1.best st2.best) :
    bestLe (ransacStep inp e1 st1).best (ransacStep inp e2 st2).best := by
  unfold ransacStep
  dsimp only
  rw [hrng]
  exact foldl_updateOne_bestLe inp e1 e2 h _ _ _ hb

/-- Coupled loops: if in both runs the budget stays pinned at `M` to the very
end, the runs execute the same iterations on the same samples and the final
best models remain in coupling order. -/
theorem ransacLoop_couple (inp : RansacIn) (e1 e2 : ℚ) (h : e1 ≤ e2) (M : ℕ) :
    ∀ (fuel : ℕ) (st1 st2 : LoopState),
      st1.it = st2.it → st1.rng = st2.rng → st1.budget = M → st2.budget = M →
      (ransacLoop inp e1 fuel st1).budget = M →
      (ransacLoop inp e2 fuel st2).budget = M →
      bestLe st1.best st2.best →
      bestLe (ransacLoop inp e1 fuel st1).best (ransacLoop inp e2 fuel st2).best := by
  intro fuel
  induction fuel with
  | zero =>
    intro st1 st2 _ _ _ _ _ _ hb
    exact hb
  | succ n ih =>
    intro st1 st2 hit hrng hbud1 hbud2 hl1 hl2 hb
    rw [ransacLoop_succ] at hl1
    rw [ransacLoop_succ] at hl2
    rw [ransacLoop_succ inp e1 n st1, ransacLoop_succ inp e2 n st2]
    by_cases hc : st1.it < st1.budget
    · have hc2 : st2.it < st2.budget := by omega
      rw [if_pos hc] at hl1
      rw [if_pos hc2] at hl2
      rw [if_pos hc, if_pos hc2]
      have hsb1 : (ransacStep inp e1 st1).budget ≤ st1.budget :=
        ransacStep_budget_le inp e1 st1
      have hsb2 : (ransacStep inp e2 st2).budget ≤ st2.budget :=
        ransacStep_budget_le inp e2 st2
      have hlb1 : (ransacLoop inp e1 n (ransacStep inp e1 st1)).budget ≤
          (ransacStep inp e1 st1).budget := ransacLoop_budget_le inp e1 n _
      have hlb2 : (ransacLoop inp e2 n (ransacStep inp e2 st2)).budget ≤
          (ransacStep inp e2 st2).budget := ransacLoop_budget_le inp e2 n _
      have hit1 : (ransacStep inp e1 st1).it = st1.it + 1 := rfl
      have hit2 : (ransacStep inp e2 st2).it = st2.it + 1 := rfl
      have hrng1 : (ransacStep inp e1 st1).rng =
          (drawSample inp.s (List.range inp.N) st1.rng).2 := rfl
      have hrng2 : (ransacStep inp e2 st2).rng =
          (drawSample inp.s (List.range inp.N) st2.rng).2 := rfl
      apply ih
      · omega
      · rw [hrng1, hrng2, hrng]
      · omega
      · omega
      · exact hl1
      · exact hl2
      · exact ransacStep_bestLe inp e1 e2 h st1 st2 hrng hb
    · have hc2 : ¬ st2.it < st2.budget := by omega
      rw [if_neg hc, if_neg hc2]
      exact hb

/-- C7 amended: for fixed input and seed the reported inlier-set size is
monotonically non-decreasing in `max_error` provided the adaptive budget stays
at the hard maximum to the end of both runs (so both runs examine the same
samples) and no post-hoc refit is performed.  Both provisos are forced by
`inlierCount_not_monotone`: a shrinking budget can stop the larger-threshold
run before a better sample (9 → 8), and a refit hands the two runs different
inlier sets whose refit matrices have unrelated re-thresholded counts
(8 → 0). -/
theorem robustFundamental_count_mono (inp : RansacIn) (e1 e2 : ℚ) (seed : ℕ)
    (out1 : Best) (h : e1 ≤ e2) (hrefit : inp.refit = none)
    (hbud1 : (ransacRun inp e1 seed).budget = inp.maxIter)
    (hbud2 : (ransacRun inp e2 seed).budget = inp.maxIter)
    (h1 : robustFundamental inp e1 seed = some out1) :
    ∃ out2, robustFundamental inp e2 seed = some out2 ∧
      out1.inliers.length ≤ out2.inliers.length := by
  have hgood1 : ∀ b, (ransacRun inp e1 seed).best = some b → GoodBest inp e1 b := by
    apply ransacLoop_good inp e1 inp.maxIter (initState inp seed)
    intro b hb
    simp [initState] at hb
  have hgood2 : ∀ b, (ransacRun inp e2 seed).best = some b → GoodBest inp e2 b := by
    apply ransacLoop_good inp e2 inp.maxIter (initState inp seed)
    intro b hb
    simp [initState] at hb
  have hcouple : bestLe (ransacRun inp e1 seed).best (ransacRun inp e2 seed).best := by
    apply ransacLoop_couple inp e1 e2 h inp.maxIter inp.maxIter
      (initState inp seed) (initState inp seed) rfl rfl rfl rfl hbud1 hbud2
    intro x hx
    simp [initState] at hx
  unfold robustFundamental at h1
  rcases hb1 : (ransacRun inp e1 seed).best with _ | b1
  · rw [hb1] at h1
    cases h1
  · rw [hb1] at h1
    dsimp only at h1
    by_cases hs : b1.score < inp.s
    · simp [hs] at h1
    · simp only [hs, if_false] at h1
      rw [hrefit] at h1
      have hbo : b1 = out1 := by injection h1
      subst hbo
      rcases hcouple b1 hb1 with ⟨b2, hb2, hscore⟩
      have hs2 : ¬ b2.score < inp.s := by omega
      refine ⟨b2, ?_, ?_⟩
      · unfold robustFundamental
        rw [hb2]
        dsimp only
        rw [if_neg hs2, hrefit]
      · have hg1 := (hgood1 b1 hb1).2.2
        have hg2 := (hgood2 b2 hb2).2.2
        omega

/-- Closed instance of `robustFundamental_count_mono`: with
`outliers_probability = 1/100` the budget never shrinks, and raising
`max_error` from 10 to 20 keeps the reported inlier count at 9 ≥ 9. -/
theorem robustFundamental_count_mono_witness :
    ((10 : ℚ) ≤ 20 ∧ cexW.refit = none ∧
      (ransacRun cexW 10 1).budget = cexW.maxIter ∧
      (ransacRun cexW 20 1).budget = cexW.maxIter ∧
      robustFundamental cexW 10 1 = some bestW) ∧
    (∃ out2, robustFundamental cexW 20 1 = some out2 ∧
      bestW.inliers.length ≤ out2.inliers.length) :=
  ⟨⟨by norm_num, rfl, by decide, by decide, by decide⟩,
    robustFundamental_count_mono cexW 10 20 1 bestW (by norm_num) rfl
      (by decide) (by decide) (by decide)⟩

end LibmvC
